import Mathlib

/-!
# Verification of the CSV plotter core (`src/App.tsx`)

This file gives a shallow embedding, in Lean 4, of the data-handling core of
the CSV plotter application: the Largest-Triangle-Three-Buckets downsampler
(`largestTriangleThreeBuckets`), the batch file-processing pipeline
(`processFiles`), the state mutators (`handleClearAll`, `handleSelectionChange`,
`handleStyleChange`) and the derived render data (`tracesToPlot`, `plotLayout`).

Numeric values are modelled by exact rationals (`ℚ`) in place of JavaScript
IEEE doubles; all index arithmetic of the source is over exact integers, and
no claim below depends on rounding of doubles.  Asynchrony is modelled by an
explicit completion order for the batched reads; `Promise.all` resolves with
results in submission order, or rejects with the first read error in
completion order.
-/

namespace CsvPlotter

/-- A data point, as in the objects `{ x, y }` fed to the downsampler. -/
structure Point where
  x : ℚ
  y : ℚ
deriving DecidableEq, Repr, Inhabited

/-- Palette of named dash styles (`LINE_STYLES` in `App.tsx`). -/
def LINE_STYLES : List String :=
  ["solid", "dash", "dot", "dashdot", "longdash", "longdashdot"]

/-- `DOWNSAMPLING_THRESHOLD` in `App.tsx`. -/
def DOWNSAMPLING_THRESHOLD : Nat := 5000

/-- `DOWNSAMPLED_POINT_COUNT` in `App.tsx`. -/
def DOWNSAMPLED_POINT_COUNT : Nat := 1000

/-- Triangle area (twice halved) computed in the inner loop of the
downsampler: `Math.abs((pointAX - avgX) * (data[j].y - pointAY) -
(pointAX - data[j].x) * (avgY - pointAY)) * 0.5`. -/
def triangleArea (aPt : Point) (avg : Point) (p : Point) : ℚ :=
  |(aPt.x - avg.x) * (p.y - aPt.y) - (aPt.x - p.x) * (avg.y - aPt.y)| * (1 / 2)

/-- The inner candidate scan of one bucket: walks the index list, keeping the
maximum-area candidate.  `mp` and `na` are the JavaScript variables
`maxAreaPoint` and `nextA`, which are declared outside the bucket loop and
hence carried over from the previous bucket when the current bucket is empty. -/
def scanBucket (data : List Point) (aPt : Point) (avg : Point) :
    List Nat → ℚ → Option Point → Nat → Option Point × Nat
  | [], _, mp, na => (mp, na)
  | j :: rest, maxArea, mp, na =>
    let p := data.getD j default
    let area := triangleArea aPt avg p
    if maxArea < area then
      scanBucket data aPt avg rest area (some p) j
    else
      scanBucket data aPt avg rest maxArea mp na

/-- Mean point of the index range `[lo, hi)` of `data` (the "average point for
the next bucket").  Division by zero (empty range) yields `0` in `ℚ`; in the
source it yields `NaN`, but the range is never empty on the reachable paths of
the algorithm (`threshold - 2` buckets exist only when `3 ≤ threshold <
data.length`, which makes every bucket nonempty). -/
def bucketAvg (data : List Point) (lo hi : Nat) : Point :=
  let idxs := List.range' lo (hi - lo)
  let sx := (idxs.map fun j => (data.getD j default).x).sum
  let sy := (idxs.map fun j => (data.getD j default).y).sum
  ⟨sx / ((hi : ℚ) - (lo : ℚ)), sy / ((hi : ℚ) - (lo : ℚ))⟩

/-- Loop state of the downsampler's main `for` loop: the output being built
(`sampled`), the anchor index `a`, and the loop-carried `maxAreaPoint` /
`nextA` variables. -/
structure LttbState where
  sampled : List Point
  a : Nat
  mp : Option Point
  na : Nat

/-- Nonnegative floor used for the bucket edges `Math.floor(... * every)`. -/
def qfloor (q : ℚ) : Nat := (⌊q⌋).toNat

/-- One iteration of the downsampler's bucket loop for bucket `i`. -/
def lttbStep (data : List Point) (every : ℚ) (n : Nat) (s : LttbState) (i : Nat) :
    LttbState :=
  let avgRangeStart := qfloor (((i : ℚ) + 1) * every) + 1
  let avgRangeEnd := min (qfloor (((i : ℚ) + 2) * every) + 1) n
  let avg := bucketAvg data avgRangeStart avgRangeEnd
  let rangeOffs := qfloor ((i : ℚ) * every) + 1
  let rangeTo := qfloor (((i : ℚ) + 1) * every) + 1
  let aPt := data.getD s.a default
  let scanned := scanBucket data aPt avg (List.range' rangeOffs (rangeTo - rangeOffs)) (-1) s.mp s.na
  ⟨if scanned.1.isSome then s.sampled ++ [scanned.1.getD default] else s.sampled,
   if scanned.1.isSome then scanned.2 else s.a,
   scanned.1, scanned.2⟩

/-- The Largest-Triangle-Three-Buckets downsampler
(`largestTriangleThreeBuckets` in `App.tsx`). -/
def largestTriangleThreeBuckets (data : List Point) (threshold : Nat) : List Point :=
  if data.length ≤ threshold ∨ threshold = 0 then data
  else
    let n := data.length
    let every : ℚ := ((n : ℚ) - 2) / ((threshold : ℚ) - 2)
    let init : LttbState := ⟨[data.headD default], 0, none, 0⟩
    let final := (List.range (threshold - 2)).foldl (lttbStep data every n) init
    final.sampled ++ [data.getD (n - 1) default]

/-! ## Lemmas about the downsampler -/

lemma triangleArea_nonneg (aPt avg p : Point) : 0 ≤ triangleArea aPt avg p :=
  mul_nonneg (abs_nonneg _) (by norm_num)

lemma scanBucket_isSome_of_some (data : List Point) (aPt avg : Point)
    (idxs : List Nat) (m : ℚ) (p : Point) (na : Nat) :
    (scanBucket data aPt avg idxs m (some p) na).1.isSome := by
  induction idxs generalizing m p na with
  | nil => simp [scanBucket]
  | cons j rest ih =>
    simp only [scanBucket]
    split
    · exact ih _ _ _
    · exact ih _ _ _

lemma scanBucket_isSome_of_ne_nil (data : List Point) (aPt avg : Point)
    (idxs : List Nat) (h : idxs ≠ []) (mp : Option Point) (na : Nat) :
    (scanBucket data aPt avg idxs (-1) mp na).1.isSome := by
  cases idxs with
  | nil => exact absurd rfl h
  | cons j rest =>
    have hpos : (-1 : ℚ) < triangleArea aPt avg (data.getD j default) :=
      lt_of_lt_of_le (by norm_num) (triangleArea_nonneg _ _ _)
    simp only [scanBucket, if_pos hpos]
    exact scanBucket_isSome_of_some data aPt avg rest _ _ j

lemma qfloor_lt_qfloor_succ (every : ℚ) (he : 1 ≤ every) (i : Nat) :
    qfloor ((i : ℚ) * every) + 1 ≤ qfloor (((i : ℚ) + 1) * every) := by
  have h0 : (0 : ℚ) ≤ (i : ℚ) * every :=
    mul_nonneg (Nat.cast_nonneg i) (le_trans zero_le_one he)
  have h1 : (i : ℚ) * every + 1 ≤ ((i : ℚ) + 1) * every := by nlinarith
  have h2 : ⌊(i : ℚ) * every⌋ + 1 ≤ ⌊((i : ℚ) + 1) * every⌋ := by
    calc ⌊(i : ℚ) * every⌋ + 1 = ⌊(i : ℚ) * every + 1⌋ := (Int.floor_add_one _).symm
    _ ≤ ⌊((i : ℚ) + 1) * every⌋ := Int.floor_mono h1
  have h3 : 0 ≤ ⌊(i : ℚ) * every⌋ := Int.floor_nonneg.mpr h0
  unfold qfloor
  omega

lemma lttbStep_sampled (data : List Point) (every : ℚ) (he : 1 ≤ every)
    (n : Nat) (s : LttbState) (i : Nat) :
    ∃ p : Point, (lttbStep data every n s i).sampled = s.sampled ++ [p] := by
  have hb : qfloor ((i : ℚ) * every) + 1 < qfloor (((i : ℚ) + 1) * every) + 1 := by
    have := qfloor_lt_qfloor_succ every he i
    omega
  have hne : List.range' (qfloor ((i : ℚ) * every) + 1)
      ((qfloor (((i : ℚ) + 1) * every) + 1) - (qfloor ((i : ℚ) * every) + 1)) ≠ [] := by
    intro hcon
    have := congrArg List.length hcon
    simp [List.length_range'] at this
    omega
  have hs := scanBucket_isSome_of_ne_nil data (data.getD s.a default)
    (bucketAvg data (qfloor (((i : ℚ) + 1) * every) + 1)
      (min (qfloor (((i : ℚ) + 2) * every) + 1) n)) _ hne s.mp s.na
  refine ⟨(scanBucket data (data.getD s.a default)
      (bucketAvg data (qfloor (((i : ℚ) + 1) * every) + 1)
        (min (qfloor (((i : ℚ) + 2) * every) + 1) n))
      (List.range' (qfloor ((i : ℚ) * every) + 1)
        ((qfloor (((i : ℚ) + 1) * every) + 1) - (qfloor ((i : ℚ) * every) + 1)))
      (-1) s.mp s.na).1.getD default, ?_⟩
  simp only [lttbStep]
  rw [if_pos hs]

lemma lttb_fold_spec (data : List Point) (every : ℚ) (he : 1 ≤ every)
    (n : Nat) (k : Nat) :
    (((List.range k).foldl (lttbStep data every n)
        ⟨[data.headD default], 0, none, 0⟩).sampled.length = k + 1) ∧
    (((List.range k).foldl (lttbStep data every n)
        ⟨[data.headD default], 0, none, 0⟩).sampled.head? = some (data.headD default)) := by
  induction k with
  | zero => simp
  | succ k ih =>
    rw [List.range_succ, List.foldl_append, List.foldl_cons, List.foldl_nil]
    obtain ⟨p, hp⟩ := lttbStep_sampled data every he n
      ((List.range k).foldl (lttbStep data every n) ⟨[data.headD default], 0, none, 0⟩) k
    rw [hp]
    constructor
    · rw [List.length_append, ih.1]
      rfl
    · rcases hh : ((List.range k).foldl (lttbStep data every n)
        ⟨[data.headD default], 0, none, 0⟩).sampled with _ | ⟨a, t⟩
      · rw [hh] at ih
        exact absurd ih.1 (by simp)
      · have h2 := ih.2
        rw [hh] at h2
        simp only [List.head?_cons] at h2 ⊢
        exact h2

lemma getLast?_eq_getD (l : List Point) (h : l ≠ []) :
    l.getLast? = some (l.getD (l.length - 1) default) := by
  induction l with
  | nil => exact absurd rfl h
  | cons a t ih =>
    cases t with
    | nil => simp
    | cons b u =>
      rw [List.getLast?_cons_cons, ih (by simp)]
      simp

lemma head?_append_left (xs ys : List Point) (h : xs ≠ []) :
    (xs ++ ys).head? = xs.head? := by
  cases xs with
  | nil => exact absurd rfl h
  | cons a t => rfl

/-! ## Claim theorems for the downsampler -/

/-- C1: for every input sequence of points with `target < len(points)` and
`3 ≤ target`, `largestTriangleThreeBuckets` returns exactly `target` points,
whose first element is the input's first point and whose last element is the
input's last point. -/
theorem downsample_exact_target_and_endpoints (data : List Point) (target : Nat)
    (h1 : target < data.length) (h2 : 3 ≤ target) :
    (largestTriangleThreeBuckets data target).length = target ∧
    (largestTriangleThreeBuckets data target).head? = data.head? ∧
    (largestTriangleThreeBuckets data target).getLast? = data.getLast? := by
  have hne : data ≠ [] := by
    intro hcon
    rw [hcon] at h1
    simp at h1
  have hcond : ¬(data.length ≤ target ∨ target = 0) := by omega
  have hevery : 1 ≤ ((data.length : ℚ) - 2) / ((target : ℚ) - 2) := by
    have ht : (3 : ℚ) ≤ (target : ℚ) := by exact_mod_cast h2
    have hn : (target : ℚ) + 1 ≤ (data.length : ℚ) := by
      exact_mod_cast Nat.succ_le_of_lt h1
    rw [le_div_iff₀ (by linarith)]
    linarith
  have hfold := lttb_fold_spec data (((data.length : ℚ) - 2) / ((target : ℚ) - 2))
    hevery data.length (target - 2)
  simp only [largestTriangleThreeBuckets, if_neg hcond]
  refine ⟨?_, ?_, ?_⟩
  · rw [List.length_append, hfold.1]
    simp only [List.length_cons, List.length_nil]
    omega
  · rw [head?_append_left _ _ (by
      intro hcon
      have := hfold.1
      rw [hcon] at this
      simp at this), hfold.2]
    cases data with
    | nil => exact absurd rfl hne
    | cons a t => rfl
  · rw [List.getLast?_concat, getLast?_eq_getD data hne]

/-- C2: whenever `len(points) ≤ target` or `target = 0`,
`largestTriangleThreeBuckets` returns its input unchanged. -/
theorem downsample_identity (data : List Point) (target : Nat)
    (h : data.length ≤ target ∨ target = 0) :
    largestTriangleThreeBuckets data target = data := by
  simp only [largestTriangleThreeBuckets, if_pos h]

/-! ## The application state and its operations

The component state of `App.tsx` (`parsedFileData`, `fileOrder`,
`selectedFiles`, axis titles, `error`, `fileStyles`, `downsampledFiles`,
`isLoading`).  JavaScript objects used as string-keyed maps are modelled by
association lists whose keys stay unique because entries are only added
through `assocSet` (update-in-place or append, exactly the semantics of
`{ ...prev, [k]: v }`); `Set<string>` is modelled by an insertion-ordered
duplicate-free list. -/

/-- One Plotly trace as built by `processFiles`
(`{ x, y, mode: 'lines', name, line: { width: 2 }, _headers }`).
`mode` is the constant `'lines'` and is omitted. -/
structure Trace where
  x : List ℚ
  y : List ℚ
  name : String
  lineWidth : Nat
  lineDash : Option String
  hx : String
  hy : String
deriving DecidableEq, Repr, Inhabited

/-- The result of `Papa.parse` on one file's raw text (header mode, dynamic
typing): the parse errors, the ordered header fields (`res.meta.fields`) and
the data rows (`res.data`), each row aligned positionally with the fields.
Papa itself is an external CDN library; its output shape is taken from the
`complete` callback's uses of `res`. -/
structure FileContent where
  errors : List String
  fields : List String
  rows : List (List ℚ)
deriving DecidableEq, Repr, Inhabited

/-- Outcome of the `FileReader` read of one submitted file. -/
inductive ReadResult where
  | ok (content : FileContent)
  | err
deriving DecidableEq, Repr, Inhabited

/-- Association-list lookup, i.e. reading `obj[key]` of a JS object. -/
def alookup {β : Type} : List (String × β) → String → Option β
  | [], _ => none
  | (k, v) :: rest, nm => if nm = k then some v else alookup rest nm

/-- `{ ...m, [k]: v }` for a single key: update in place if present, else
append. -/
def assocSet {β : Type} (m : List (String × β)) (k : String) (v : β) :
    List (String × β) :=
  if (alookup m k).isSome then
    m.map fun p => if p.1 = k then (k, v) else p
  else m ++ [(k, v)]

/-- `{ ...m, ...adds }`: object spread of a second map over a first. -/
def mergeAssoc {β : Type} (m adds : List (String × β)) : List (String × β) :=
  adds.foldl (fun acc p => assocSet acc p.1 p.2) m

/-- `new Set([...xs, ...ys])`: insertion-ordered union. -/
def setUnion (xs ys : List String) : List String :=
  ys.foldl (fun acc y => if y ∈ acc then acc else acc ++ [y]) xs

/-- The React component state of `App`. -/
structure AppState where
  parsedFileData : List (String × List Trace)
  fileOrder : List String
  selectedFiles : List String
  xAxisTitle : String
  yAxisTitle : String
  error : Option String
  fileStyles : List (String × String)
  downsampledFiles : List String
  isLoading : Bool
deriving DecidableEq, Repr

/-- The initial state of every `useState` hook. -/
def initialState : AppState :=
  ⟨[], [], [], "", "", none, [], [], false⟩

/-- One trace of the `complete` callback's per-column loop, for column index
`i ≥ 1`: x from the first column, y from column `i`, downsampled through
`largestTriangleThreeBuckets` when the series is longer than
`DOWNSAMPLING_THRESHOLD`. -/
def buildTrace (fileName : String) (fc : FileContent) (i : Nat) : Trace :=
  let xHeader := fc.fields.getD 0 ""
  let yHeader := fc.fields.getD i ""
  let xData := fc.rows.map fun row => row.getD 0 0
  let yData := fc.rows.map fun row => row.getD i 0
  if DOWNSAMPLING_THRESHOLD < xData.length then
    let combined := (xData.zip yData).map fun p => Point.mk p.1 p.2
    let sampled := largestTriangleThreeBuckets combined DOWNSAMPLED_POINT_COUNT
    ⟨sampled.map Point.x, sampled.map Point.y,
      yHeader ++ " (" ++ fileName ++ ")", 2, none, xHeader, yHeader⟩
  else
    ⟨xData, yData, yHeader ++ " (" ++ fileName ++ ")", 2, none, xHeader, yHeader⟩

/-- All traces of one file (`fileTraces`), one per non-key column. -/
def buildFileTraces (fileName : String) (fc : FileContent) : List Trace :=
  (List.range (fc.fields.length - 1)).map fun j => buildTrace fileName fc (j + 1)

/-- The batch accumulator of `processFiles`'s `.then` handler: the local
`newParsedData`, `newFileNames`, `newStyles` and `newDownsampledFiles`
variables, plus the value of the `error` state slot. -/
structure BatchAcc where
  newParsedData : List (String × List Trace)
  newFileNames : List String
  newStyles : List (String × String)
  newDownsampled : List String
  err : Option String
deriving DecidableEq, Repr

/-- The `complete` callback of `Papa.parse` for one read result, updating the
batch accumulator.  `base` is `fileOrder.length` captured by the closure. -/
def processOneResult (base : Nat) (acc : BatchAcc) (r : String × FileContent) :
    BatchAcc :=
  let nm := r.1
  let fc := r.2
  if fc.errors ≠ [] then
    { acc with err := some ("Parsing error in " ++ nm ++ ": " ++ fc.errors.headD "") }
  else if fc.rows.length = 0 ∨ fc.fields.length = 0 ∨ fc.fields.length < 2 then
    acc
  else
    let fileTraces := buildFileTraces nm fc
    if 0 < fileTraces.length then
      { newParsedData := acc.newParsedData ++ [(nm, fileTraces)],
        newFileNames := acc.newFileNames ++ [nm],
        newStyles := acc.newStyles ++
          [(nm, LINE_STYLES.getD ((base + (acc.newFileNames.length + 1) - 1) % LINE_STYLES.length) "")],
        newDownsampled :=
          if DOWNSAMPLING_THRESHOLD < fc.rows.length then acc.newDownsampled ++ [nm]
          else acc.newDownsampled,
        err := acc.err }
    else acc

/-- Whether a read at index `i` of the filtered batch fails. -/
def readFailsAt (files : List (String × ReadResult)) (i : Nat) : Bool :=
  match (files.getD i ("", ReadResult.err)).2 with
  | ReadResult.err => true
  | ReadResult.ok _ => false

/-- The batch entries whose names are not yet registered (`newFiles` in
`processFiles`: `Array.from(files).filter(file => !parsedFileData[file.name])`). -/
def newBatchFiles (s : AppState) (files : List (String × ReadResult)) :
    List (String × ReadResult) :=
  files.filter fun f => (alookup s.parsedFileData f.1).isNone

/-- The contents of the successful reads, in submission order (the `results`
array with which `Promise.all` resolves). -/
def okContents (files : List (String × ReadResult)) :
    List (String × FileContent) :=
  files.filterMap fun f =>
    match f.2 with
    | ReadResult.ok c => some (f.1, c)
    | ReadResult.err => none

/-- `Promise.all` over the per-file read promises: resolves with the contents
in submission order once all reads succeed, or rejects with the error of the
first read (in completion order `co`) that fails. -/
def promiseAll (files : List (String × ReadResult)) (co : List Nat) :
    Except String (List (String × FileContent)) :=
  match co.find? (readFailsAt files) with
  | some i => Except.error ("Error reading " ++ (files.getD i ("", ReadResult.err)).1)
  | none => Except.ok (okContents files)

/-- `processFiles`: filter out already-registered names, read all files,
parse each result, and merge everything that succeeded into the state in one
update.  `co` is the order in which the asynchronous reads settle. -/
def processFiles (s : AppState) (files : List (String × ReadResult))
    (co : List Nat) : AppState :=
  if files.length = 0 then s
  else
    if (newBatchFiles s files).length = 0 then { s with error := none, isLoading := false }
    else
      match promiseAll (newBatchFiles s files) co with
      | Except.error msg => { s with error := some msg, isLoading := false }
      | Except.ok results =>
        let acc := results.foldl (processOneResult s.fileOrder.length)
          ⟨[], [], [], [], none⟩
        if 0 < acc.newFileNames.length then
          { parsedFileData := mergeAssoc s.parsedFileData acc.newParsedData,
            fileOrder := s.fileOrder ++ acc.newFileNames,
            selectedFiles := setUnion s.selectedFiles acc.newFileNames,
            xAxisTitle := s.xAxisTitle,
            yAxisTitle := s.yAxisTitle,
            error := acc.err,
            fileStyles := mergeAssoc s.fileStyles acc.newStyles,
            downsampledFiles := setUnion s.downsampledFiles acc.newDownsampled,
            isLoading := false }
        else { s with error := acc.err, isLoading := false }

/-- `handleClearAll`: reset every state slot to its initial value. -/
def handleClearAll (s : AppState) : AppState :=
  { parsedFileData := [],
    fileOrder := [],
    selectedFiles := [],
    xAxisTitle := "",
    yAxisTitle := "",
    error := none,
    fileStyles := [],
    downsampledFiles := [],
    isLoading := s.isLoading }

/-- `handleSelectionChange`: toggle one file in the selection set. -/
def handleSelectionChange (s : AppState) (fileName : String) : AppState :=
  { s with selectedFiles :=
      if fileName ∈ s.selectedFiles then s.selectedFiles.filter (· ≠ fileName)
      else s.selectedFiles ++ [fileName] }

/-- `handleStyleChange`: `setFileStyles(prev => ({ ...prev, [fileName]: style }))`. -/
def handleStyleChange (s : AppState) (fileName style : String) : AppState :=
  { s with fileStyles := assocSet s.fileStyles fileName style }

/-- `fileStyles[fileName] || 'solid'` (the empty string is falsy in JS). -/
def styleOf (s : AppState) (nm : String) : String :=
  match alookup s.fileStyles nm with
  | some st => if st = "" then "solid" else st
  | none => "solid"

/-- The deep-copied traces of one file with `trace.line.dash` set to the
file's current style. -/
def stampedTraces (s : AppState) (nm : String) : List Trace :=
  ((alookup s.parsedFileData nm).getD []).map fun t =>
    { t with lineDash := some (styleOf s nm) }

/-- `tracesToPlot`: the flattened traces of the selected, registered files in
registry order, each stamped with its file's style. -/
def tracesToPlot (s : AppState) : List Trace :=
  (s.fileOrder.filter fun nm =>
      decide (nm ∈ s.selectedFiles) && (alookup s.parsedFileData nm).isSome).flatMap
    (stampedTraces s)

/-- The currently selected files in registry order (`plottedFiles`). -/
def plottedFiles (s : AppState) : List String :=
  s.fileOrder.filter fun nm => decide (nm ∈ s.selectedFiles)

/-- `style.charAt(0).toUpperCase() + style.slice(1)`. -/
def capitalize (st : String) : String :=
  match st.toList with
  | [] => ""
  | c :: rest => String.mk (c.toUpper :: rest)

/-- `fileName.length > 20 ? fileName.substring(0, 17) + '...' : fileName`. -/
def truncName (nm : String) : String :=
  if 20 < nm.length then nm.take 17 ++ "..." else nm

/-- The `, N trace(s)` suffix of a custom legend label. -/
def traceCountText (n : Nat) : String :=
  if 0 < n then ", " ++ toString n ++ " trace" ++ (if 1 < n then "s" else "")
  else ""

/-- The custom legend dash swatches (`legendShapes`): `(yPos, dash)` per
plotted file, `yPos = 1.0 - index * 0.08`. -/
def shapesAux (s : AppState) : List String → Nat → List (ℚ × String)
  | [], _ => []
  | nm :: rest, idx =>
    ((1 : ℚ) - (idx : ℚ) * 0.08, styleOf s nm) :: shapesAux s rest (idx + 1)

/-- The custom legend text entries for the plotted files: `(yPos, text)`. -/
def labelsAux (s : AppState) : List String → Nat → List (ℚ × String)
  | [], _ => []
  | nm :: rest, idx =>
    ((1 : ℚ) - (idx : ℚ) * 0.08,
      "<b>" ++ truncName nm ++ "</b> (" ++ capitalize (styleOf s nm) ++
        traceCountText ((alookup s.parsedFileData nm).getD []).length ++ ")") ::
      labelsAux s rest (idx + 1)

/-- The fields of the Plotly layout object that carry the legend geometry and
titles (`plotLayout` in `App.tsx`); constant styling fields are omitted. -/
structure Layout where
  titleText : String
  xTitle : String
  yTitle : String
  legendY : ℚ
  shapes : List (ℚ × String)
  legendTexts : List (ℚ × String)
deriving DecidableEq, Repr

/-- The `plotLayout` memo: `{}` (here `none`) when there are no traces,
otherwise the layout with the custom per-file legend and the vertical offset
`1.08 - (plottedFiles.length * 0.08 + 0.08)` of the default legend. -/
def plotLayout (s : AppState) : Option Layout :=
  if (tracesToPlot s).length = 0 then none
  else
    let pf := plottedFiles s
    some
      { titleText := "<b>Plot of " ++ String.intercalate ", " pf ++ "</b>",
        xTitle := "<b>" ++
          (if s.xAxisTitle ≠ "" then s.xAxisTitle
           else if ((tracesToPlot s).headD default).hx ≠ "" then
             ((tracesToPlot s).headD default).hx
           else "X-Axis") ++ "</b>",
        yTitle := "<b>" ++ (if s.yAxisTitle ≠ "" then s.yAxisTitle else "Value") ++ "</b>",
        legendY := (1.08 : ℚ) - ((pf.length : ℚ) * 0.08 + 0.08),
        shapes := shapesAux s pf 0,
        legendTexts := labelsAux s pf 0 ++
          (if 0 < pf.length then [((1.08 : ℚ), "<b>File Styles</b>")] else []) }

/-! ## Association-list and set-union lemmas -/

lemma alookup_map_replace {β : Type} (m : List (String × β)) (k : String)
    (v : β) (g : String) (hg : g ≠ k) :
    alookup (m.map fun p => if p.1 = k then (k, v) else p) g = alookup m g := by
  induction m with
  | nil => rfl
  | cons p rest ih =>
    obtain ⟨a, b⟩ := p
    simp only [List.map_cons]
    by_cases hp : a = k
    · subst hp
      rw [if_pos (show ((a, b) : String × β).1 = a from rfl)]
      simp only [alookup]
      rw [if_neg hg, if_neg hg]
      exact ih
    · rw [if_neg (show ¬((a, b) : String × β).1 = k from hp)]
      simp only [alookup]
      by_cases hga : g = a
      · rw [if_pos hga, if_pos hga]
      · rw [if_neg hga, if_neg hga]
        exact ih

lemma assocSet_cons_of_ne {β : Type} (a : String) (b : β)
    (rest : List (String × β)) (k : String) (v : β) (hk : k ≠ a) :
    assocSet ((a, b) :: rest) k v = (a, b) :: assocSet rest k v := by
  have ha : a ≠ k := Ne.symm hk
  unfold assocSet
  simp only [alookup, if_neg hk]
  split
  · simp [ha]
  · simp

lemma alookup_assocSet {β : Type} (m : List (String × β)) (k : String)
    (v : β) (g : String) :
    alookup (assocSet m k v) g = if g = k then some v else alookup m g := by
  induction m with
  | nil =>
    simp [assocSet, alookup]
  | cons p rest ih =>
    obtain ⟨a, b⟩ := p
    by_cases hk : k = a
    · subst hk
      have hc : (alookup ((k, b) :: rest) k).isSome := by simp [alookup]
      unfold assocSet
      rw [if_pos hc]
      simp only [List.map_cons, if_true]
      simp only [alookup]
      by_cases hg : g = k
      · rw [if_pos hg, if_pos hg]
      · rw [if_neg hg, if_neg hg, if_neg hg]
        exact alookup_map_replace rest k v g hg
    · rw [assocSet_cons_of_ne a b rest k v hk]
      by_cases hg : g = a
      · subst hg
        have hak : g ≠ k := fun h => hk h.symm
        simp [alookup, hak]
      · simp [alookup, hg, ih]

lemma alookup_mergeAssoc_not_mem {β : Type} (adds m : List (String × β))
    (g : String) (h : g ∉ adds.map Prod.fst) :
    alookup (mergeAssoc m adds) g = alookup m g := by
  induction adds generalizing m with
  | nil => rfl
  | cons p rest ih =>
    simp only [List.map_cons, List.mem_cons, not_or] at h
    simp only [mergeAssoc, List.foldl_cons]
    rw [show List.foldl (fun acc q => assocSet acc q.1 q.2) (assocSet m p.1 p.2) rest =
      mergeAssoc (assocSet m p.1 p.2) rest from rfl, ih _ h.2,
      alookup_assocSet, if_neg h.1]

lemma subset_setUnion_left (xs ys : List String) (a : String) (h : a ∈ xs) :
    a ∈ setUnion xs ys := by
  induction ys generalizing xs with
  | nil => exact h
  | cons y rest ih =>
    simp only [setUnion, List.foldl_cons]
    apply ih
    split
    · exact h
    · exact List.mem_append_left _ h

lemma mem_setUnion_right (xs ys : List String) (a : String) (h : a ∈ ys) :
    a ∈ setUnion xs ys := by
  induction ys generalizing xs with
  | nil => exact absurd h (List.not_mem_nil a)
  | cons y rest ih =>
    simp only [setUnion, List.foldl_cons]
    rcases List.mem_cons.mp h with rfl | hrest
    · apply subset_setUnion_left
      split
      · assumption
      · exact List.mem_append_right _ (List.mem_singleton_self a)
    · exact ih _ hrest

/-! ## Shape of a `processFiles` step -/

lemma processFiles_shape (s : AppState) (files : List (String × ReadResult))
    (co : List Nat) :
    ∃ ns : List String,
      (processFiles s files co).fileOrder = s.fileOrder ++ ns ∧
      (processFiles s files co).selectedFiles = setUnion s.selectedFiles ns := by
  simp only [processFiles]
  split
  · exact ⟨[], by simp, rfl⟩
  · split
    · exact ⟨[], by simp, rfl⟩
    · split
      · exact ⟨[], by simp, rfl⟩
      · split
        · exact ⟨_, rfl, rfl⟩
        · exact ⟨[], by simp, rfl⟩

/-! ## Claim theorems for the state operations -/

/-- C8: the clear-all operation resets the registry, the selection, the
styles, the downsampled flags and both axis-title overrides to empty/default
in one step, and afterwards the derived plot request is empty (`tracesToPlot`
is empty and `plotLayout` is the empty object). -/
theorem clearAll_resets_everything (s : AppState) :
    (handleClearAll s).parsedFileData = [] ∧
    (handleClearAll s).fileOrder = [] ∧
    (handleClearAll s).selectedFiles = [] ∧
    (handleClearAll s).fileStyles = [] ∧
    (handleClearAll s).downsampledFiles = [] ∧
    (handleClearAll s).xAxisTitle = "" ∧
    (handleClearAll s).yAxisTitle = "" ∧
    (handleClearAll s).error = none ∧
    tracesToPlot (handleClearAll s) = [] ∧
    plotLayout (handleClearAll s) = none :=
  ⟨rfl, rfl, rfl, rfl, rfl, rfl, rfl, rfl, rfl, rfl⟩

/-- C10: every file registered by a batch merge is selected immediately
afterwards, without any selection toggle by the user. -/
theorem new_files_auto_selected (s : AppState)
    (files : List (String × ReadResult)) (co : List Nat) (nm : String)
    (hmem : nm ∈ (processFiles s files co).fileOrder)
    (hnew : nm ∉ s.fileOrder) :
    nm ∈ (processFiles s files co).selectedFiles := by
  obtain ⟨ns, hord, hsel⟩ := processFiles_shape s files co
  rw [hord] at hmem
  rw [hsel]
  rcases List.mem_append.mp hmem with hl | hr
  · exact absurd hl hnew
  · exact mem_setUnion_right _ _ _ hr

lemma line_styles_ne_empty (st : String) (hst : st ∈ LINE_STYLES) : st ≠ "" := by
  simp only [LINE_STYLES, List.mem_cons, List.mem_singleton] at hst
  rcases hst with rfl | rfl | rfl | rfl | rfl | rfl | h
  · decide
  · decide
  · decide
  · decide
  · decide
  · decide
  · exact absurd h (List.not_mem_nil st)

/-- C7: overriding one registered file's style mutates only that file's style
slot; registry order, selection, parsed series data and downsampled flags are
untouched, every other file's style and rendered traces are unchanged, and all
of the file's own traces subsequently render with the new style while keeping
their x/y data and names. -/
theorem setStyle_only_touches_one_file (s : AppState) (nm st : String)
    (_hreg : nm ∈ s.fileOrder) (hst : st ∈ LINE_STYLES) :
    (handleStyleChange s nm st).fileOrder = s.fileOrder ∧
    (handleStyleChange s nm st).selectedFiles = s.selectedFiles ∧
    (handleStyleChange s nm st).parsedFileData = s.parsedFileData ∧
    (handleStyleChange s nm st).downsampledFiles = s.downsampledFiles ∧
    styleOf (handleStyleChange s nm st) nm = st ∧
    (∀ g, g ≠ nm → styleOf (handleStyleChange s nm st) g = styleOf s g) ∧
    (∀ t ∈ stampedTraces (handleStyleChange s nm st) nm, t.lineDash = some st) ∧
    ((stampedTraces (handleStyleChange s nm st) nm).map (fun t => (t.x, t.y, t.name)) =
      ((alookup s.parsedFileData nm).getD []).map (fun t => (t.x, t.y, t.name))) ∧
    (∀ g, g ≠ nm → stampedTraces (handleStyleChange s nm st) g = stampedTraces s g) := by
  have hlook : alookup (handleStyleChange s nm st).fileStyles nm = some st := by
    simp only [handleStyleChange]
    rw [alookup_assocSet, if_pos rfl]
  have hstyle : styleOf (handleStyleChange s nm st) nm = st := by
    rw [styleOf, hlook]
    simp [line_styles_ne_empty st hst]
  have hother : ∀ g, g ≠ nm → styleOf (handleStyleChange s nm st) g = styleOf s g := by
    intro g hg
    rw [styleOf, styleOf]
    simp only [handleStyleChange]
    rw [alookup_assocSet, if_neg hg]
  refine ⟨rfl, rfl, rfl, rfl, hstyle, hother, ?_, ?_, ?_⟩
  · intro t ht
    simp only [stampedTraces, List.mem_map] at ht
    obtain ⟨u, _, hu⟩ := ht
    rw [← hu, hstyle]
  · simp only [stampedTraces, List.map_map]
    rfl
  · intro g hg
    simp only [stampedTraces, hother g hg]
    rfl

/-! ## Characterisation of the batch merge -/

/-- Whether the `complete` callback registers a file with this parse
result: no parse errors, at least one row, and at least two columns. -/
def registers (fc : FileContent) : Bool :=
  fc.errors.isEmpty && decide (0 < fc.rows.length) && decide (2 ≤ fc.fields.length)

/-- Names of the results that register, in submission order. -/
def regNames (results : List (String × FileContent)) : List String :=
  (results.filter fun r => registers r.2).map Prod.fst

/-- Registered `(name, traces)` pairs, in submission order. -/
def regData (results : List (String × FileContent)) : List (String × List Trace) :=
  (results.filter fun r => registers r.2).map fun r => (r.1, buildFileTraces r.1 r.2)

/-- Registered names whose series were downsampled. -/
def regDown (results : List (String × FileContent)) : List String :=
  ((results.filter fun r => registers r.2).filter
    fun r => decide (DOWNSAMPLING_THRESHOLD < r.2.rows.length)).map Prod.fst

/-- Default styles assigned to consecutively registered names, starting at
overall registration position `start`. -/
def styleAssign (start : Nat) : List String → List (String × String)
  | [] => []
  | n :: rest =>
    (n, LINE_STYLES.getD (start % LINE_STYLES.length) "") :: styleAssign (start + 1) rest

/-- The final content of the latest-parse-error slot after a batch. -/
def regErr (e0 : Option String) (results : List (String × FileContent)) :
    Option String :=
  results.foldl
    (fun e r =>
      if r.2.errors ≠ [] then
        some ("Parsing error in " ++ r.1 ++ ": " ++ r.2.errors.headD "")
      else e)
    e0

lemma buildFileTraces_length (nm : String) (fc : FileContent) :
    (buildFileTraces nm fc).length = fc.fields.length - 1 := by
  simp [buildFileTraces]

lemma batch_foldl_spec (base : Nat) (results : List (String × FileContent)) :
    ∀ acc : BatchAcc,
      results.foldl (processOneResult base) acc =
        ⟨acc.newParsedData ++ regData results,
         acc.newFileNames ++ regNames results,
         acc.newStyles ++ styleAssign (base + acc.newFileNames.length) (regNames results),
         acc.newDownsampled ++ regDown results,
         regErr acc.err results⟩ := by
  induction results with
  | nil =>
    intro acc
    simp [regData, regNames, regDown, regErr, styleAssign]
  | cons r rest ih =>
    intro acc
    obtain ⟨nm, fc⟩ := r
    rw [List.foldl_cons]
    by_cases he : fc.errors = []
    · by_cases hskip : fc.rows.length = 0 ∨ fc.fields.length = 0 ∨ fc.fields.length < 2
      · have hreg : registers fc = false := by
          simp only [registers, he, List.isEmpty_nil, Bool.true_and]
          rcases hskip with h | h | h <;> simp [h]
        have hstep : processOneResult base acc (nm, fc) = acc := by
          simp only [processOneResult, if_neg (by simp [he] : ¬fc.errors ≠ []), if_pos hskip]
        rw [hstep, ih acc]
        have hnames : regNames ((nm, fc) :: rest) = regNames rest := by
          simp [regNames, List.filter_cons, hreg]
        have hdata : regData ((nm, fc) :: rest) = regData rest := by
          simp [regData, List.filter_cons, hreg]
        have hdown : regDown ((nm, fc) :: rest) = regDown rest := by
          simp [regDown, List.filter_cons, hreg]
        have herr : regErr acc.err ((nm, fc) :: rest) = regErr acc.err rest := by
          simp [regErr, he]
        rw [hnames, hdata, hdown, herr]
      · have hreg : registers fc = true := by
          simp only [registers, he, List.isEmpty_nil, Bool.true_and]
          push_neg at hskip
          simp only [Bool.and_eq_true, decide_eq_true_eq]
          omega
        have htr : 0 < (buildFileTraces nm fc).length := by
          rw [buildFileTraces_length]
          push_neg at hskip
          omega
        have hstep : processOneResult base acc (nm, fc) =
            ⟨acc.newParsedData ++ [(nm, buildFileTraces nm fc)],
             acc.newFileNames ++ [nm],
             acc.newStyles ++
               [(nm, LINE_STYLES.getD ((base + acc.newFileNames.length) %
                  LINE_STYLES.length) "")],
             if DOWNSAMPLING_THRESHOLD < fc.rows.length then acc.newDownsampled ++ [nm]
               else acc.newDownsampled,
             acc.err⟩ := by
          have hidx : base + (acc.newFileNames.length + 1) - 1 =
              base + acc.newFileNames.length := by omega
          simp only [processOneResult, if_neg (by simp [he] : ¬fc.errors ≠ []),
            if_neg hskip, if_pos htr, hidx]
        rw [hstep, ih]
        have hnames : regNames ((nm, fc) :: rest) = nm :: regNames rest := by
          simp [regNames, List.filter_cons, hreg]
        have hdata : regData ((nm, fc) :: rest) =
            (nm, buildFileTraces nm fc) :: regData rest := by
          simp [regData, List.filter_cons, hreg]
        have hdown : regDown ((nm, fc) :: rest) =
            if DOWNSAMPLING_THRESHOLD < fc.rows.length then nm :: regDown rest
            else regDown rest := by
          unfold regDown
          rw [List.filter_cons, if_pos (by simpa using hreg), List.filter_cons]
          by_cases hc : DOWNSAMPLING_THRESHOLD < fc.rows.length
          · rw [if_pos (by simpa using hc), List.map_cons, if_pos hc]
          · rw [if_neg (by simpa using hc), if_neg hc]
        have herr : regErr acc.err ((nm, fc) :: rest) = regErr acc.err rest := by
          simp [regErr, he]
        rw [hnames, hdata, hdown, herr]
        by_cases hc : DOWNSAMPLING_THRESHOLD < fc.rows.length
        · simp only [if_pos hc, BatchAcc.mk.injEq, styleAssign, List.append_assoc,
            List.singleton_append, List.length_append, List.length_cons,
            List.length_nil, Nat.zero_add, Nat.add_assoc]
        · simp only [if_neg hc, BatchAcc.mk.injEq, styleAssign, List.append_assoc,
            List.singleton_append, List.length_append, List.length_cons,
            List.length_nil, Nat.zero_add, Nat.add_assoc]
    · have hreg : registers fc = false := by
        have hie : fc.errors.isEmpty = false := by
          cases hfe : fc.errors with
          | nil => exact absurd hfe he
          | cons a l => rfl
        simp [registers, hie]
      have hstep : processOneResult base acc (nm, fc) =
          { acc with
            err := some ("Parsing error in " ++ nm ++ ": " ++ fc.errors.headD "") } := by
        simp only [processOneResult, if_pos (by simpa using he : fc.errors ≠ [])]
      rw [hstep, ih]
      have hnames : regNames ((nm, fc) :: rest) = regNames rest := by
        simp [regNames, List.filter_cons, hreg]
      have hdata : regData ((nm, fc) :: rest) = regData rest := by
        simp [regData, List.filter_cons, hreg]
      have hdown : regDown ((nm, fc) :: rest) = regDown rest := by
        simp [regDown, List.filter_cons, hreg]
      have herr : regErr acc.err ((nm, fc) :: rest) =
          regErr (some ("Parsing error in " ++ nm ++ ": " ++ fc.errors.headD "")) rest := by
        simp [regErr, he]
      rw [hnames, hdata, hdown, herr]

/-- The state produced by a fully successful batch merge.  This is a derived
description (justified by `batch_foldl_spec`), not a separate operation: it
names the one atomic update `processFiles` applies after all reads settle. -/
def mergedState (s : AppState) (files : List (String × ReadResult)) : AppState :=
  { parsedFileData :=
      mergeAssoc s.parsedFileData (regData (okContents (newBatchFiles s files))),
    fileOrder := s.fileOrder ++ regNames (okContents (newBatchFiles s files)),
    selectedFiles :=
      setUnion s.selectedFiles (regNames (okContents (newBatchFiles s files))),
    xAxisTitle := s.xAxisTitle,
    yAxisTitle := s.yAxisTitle,
    error := regErr none (okContents (newBatchFiles s files)),
    fileStyles := mergeAssoc s.fileStyles
      (styleAssign s.fileOrder.length (regNames (okContents (newBatchFiles s files)))),
    downsampledFiles :=
      setUnion s.downsampledFiles (regDown (okContents (newBatchFiles s files))),
    isLoading := false }

lemma regData_nil_of_regNames_nil (results : List (String × FileContent))
    (h : regNames results = []) :
    regData results = [] ∧ regDown results = [] := by
  have hf : results.filter (fun r => registers r.2) = [] := by
    have := congrArg List.length h
    simp only [regNames, List.length_map] at this
    exact List.length_eq_zero.mp this
  constructor
  · simp [regData, hf]
  · simp [regDown, hf]

lemma processFiles_all_ok (s : AppState) (files : List (String × ReadResult))
    (co : List Nat)
    (hfind : co.find? (readFailsAt (newBatchFiles s files)) = none) :
    processFiles s files co =
      if files.length = 0 then s
      else if (newBatchFiles s files).length = 0 then
        { s with error := none, isLoading := false }
      else mergedState s files := by
  by_cases h0 : files.length = 0
  · rw [if_pos h0]
    simp only [processFiles, if_pos h0]
  · rw [if_neg h0]
    by_cases h1 : (newBatchFiles s files).length = 0
    · rw [if_pos h1]
      simp only [processFiles, if_neg h0, if_pos h1]
    · rw [if_neg h1]
      have hpa : promiseAll (newBatchFiles s files) co =
          Except.ok (okContents (newBatchFiles s files)) := by
        simp only [promiseAll, hfind]
      simp only [processFiles, if_neg h0, if_neg h1, hpa]
      rw [batch_foldl_spec]
      simp only [List.nil_append, List.length_nil, Nat.add_zero]
      by_cases h2 : 0 < (regNames (okContents (newBatchFiles s files))).length
      · rw [if_pos h2]
        rfl
      · rw [if_neg h2]
        have hrn : regNames (okContents (newBatchFiles s files)) = [] := by
          have := Nat.eq_zero_of_not_pos h2
          exact List.length_eq_zero.mp this
        obtain ⟨hrd, hdn⟩ := regData_nil_of_regNames_nil _ hrn
        simp only [mergedState, hrn, hrd, hdn, styleAssign]
        have hm1 : mergeAssoc s.parsedFileData [] = s.parsedFileData := rfl
        have hm2 : mergeAssoc s.fileStyles [] = s.fileStyles := rfl
        have hu1 : setUnion s.selectedFiles [] = s.selectedFiles := rfl
        have hu2 : setUnion s.downsampledFiles [] = s.downsampledFiles := rfl
        rw [hm1, hm2, hu1, hu2]
        simp

lemma processFiles_read_error (s : AppState) (files : List (String × ReadResult))
    (co : List Nat) (i : Nat)
    (h0 : files.length ≠ 0) (h1 : (newBatchFiles s files).length ≠ 0)
    (hfind : co.find? (readFailsAt (newBatchFiles s files)) = some i) :
    processFiles s files co =
      { s with
        error := some ("Error reading " ++
          ((newBatchFiles s files).getD i ("", ReadResult.err)).1),
        isLoading := false } := by
  have hpa : promiseAll (newBatchFiles s files) co =
      Except.error ("Error reading " ++
        ((newBatchFiles s files).getD i ("", ReadResult.err)).1) := by
    simp only [promiseAll, hfind]
  simp only [processFiles, if_neg h0, if_neg h1, hpa]

lemma find_none_of_all_ok (s : AppState) (files : List (String × ReadResult))
    (co : List Nat)
    (hco : co.Perm (List.range (newBatchFiles s files).length))
    (hok : ∀ f ∈ files, f.2 ≠ ReadResult.err) :
    co.find? (readFailsAt (newBatchFiles s files)) = none := by
  rw [List.find?_eq_none]
  intro i hi
  have hilt : i < (newBatchFiles s files).length :=
    List.mem_range.mp (hco.mem_iff.mp hi)
  have hget : (newBatchFiles s files).getD i ("", ReadResult.err) =
      (newBatchFiles s files).get ⟨i, hilt⟩ := by
    rw [List.getD_eq_getElem _ _ hilt]
    rfl
  have hmem : (newBatchFiles s files).get ⟨i, hilt⟩ ∈ newBatchFiles s files :=
    List.get_mem _ i hilt
  have hfm : (newBatchFiles s files).get ⟨i, hilt⟩ ∈ files :=
    List.mem_of_mem_filter hmem
  have hok2 := hok _ hfm
  simp only [readFailsAt, hget]
  cases hr : ((newBatchFiles s files).get ⟨i, hilt⟩).2 with
  | ok c => simp
  | err => exact absurd hr hok2

/-- C4: when every read in the batch succeeds, the files producing series are
appended to the registry in submission order (the order of `files`), and the
outcome does not depend on the completion order of the asynchronous reads. -/
theorem batch_merge_in_submission_order (s : AppState)
    (files : List (String × ReadResult)) (co co' : List Nat)
    (hco : co.Perm (List.range (newBatchFiles s files).length))
    (hco' : co'.Perm (List.range (newBatchFiles s files).length))
    (hok : ∀ f ∈ files, f.2 ≠ ReadResult.err) :
    (processFiles s files co).fileOrder =
      s.fileOrder ++ regNames (okContents (newBatchFiles s files)) ∧
    processFiles s files co = processFiles s files co' := by
  have hf := processFiles_all_ok s files co (find_none_of_all_ok s files co hco hok)
  have hf' := processFiles_all_ok s files co' (find_none_of_all_ok s files co' hco' hok)
  rw [hf, hf']
  refine ⟨?_, rfl⟩
  by_cases h0 : files.length = 0
  · rw [if_pos h0]
    have hfe : files = [] := List.length_eq_zero.mp h0
    subst hfe
    simp [newBatchFiles, okContents, regNames]
  · rw [if_neg h0]
    by_cases h1 : (newBatchFiles s files).length = 0
    · rw [if_pos h1]
      rw [List.length_eq_zero.mp h1]
      simp [okContents, regNames]
    · rw [if_neg h1]
      rfl

/-- C3 (amended): a failed read rejects the whole batch: no file of the batch
is registered (registry and parsed data are untouched), and the reported
error names the first file (in completion order) whose read failed. -/
theorem read_error_aborts_whole_batch (s : AppState)
    (files : List (String × ReadResult)) (co : List Nat) (i : Nat)
    (h0 : files.length ≠ 0) (h1 : (newBatchFiles s files).length ≠ 0)
    (hfind : co.find? (readFailsAt (newBatchFiles s files)) = some i) :
    (processFiles s files co).fileOrder = s.fileOrder ∧
    (processFiles s files co).parsedFileData = s.parsedFileData ∧
    readFailsAt (newBatchFiles s files) i = true ∧
    (processFiles s files co).error =
      some ("Error reading " ++
        ((newBatchFiles s files).getD i ("", ReadResult.err)).1) := by
  rw [processFiles_read_error s files co i h0 h1 hfind]
  exact ⟨rfl, rfl, List.find?_some hfind, rfl⟩

/-- A small well-formed CSV content: header `t, a`, two numeric rows. -/
def goodContent : FileContent :=
  ⟨[], ["t", "a"], [[0, 1], [1, 2]]⟩

/-- C3 (counterexample to the claim as stated): `good.csv` reads and parses
successfully — submitted alone it is registered — yet when submitted in a
batch together with `bad.csv`, whose read fails, the read error prevents
`good.csv` from being registered; only the error message survives. -/
theorem read_error_blocks_sibling_file :
    (processFiles initialState
        [("good.csv", ReadResult.ok goodContent)] [0]).fileOrder = ["good.csv"] ∧
    (processFiles initialState
        [("good.csv", ReadResult.ok goodContent), ("bad.csv", ReadResult.err)]
        [0, 1]).fileOrder = [] ∧
    (processFiles initialState
        [("good.csv", ReadResult.ok goodContent), ("bad.csv", ReadResult.err)]
        [0, 1]).error = some "Error reading bad.csv" := by
  refine ⟨?_, ?_, ?_⟩ <;> rfl

/-! ## Legend geometry -/

lemma shapesAux_getD (s : AppState) (names : List String) :
    ∀ (k i : Nat), i < names.length →
      ((shapesAux s names k).getD i (0, "")).1 = 1 - ((k + i : Nat) : ℚ) * 0.08 := by
  induction names with
  | nil =>
    intro k i h
    simp at h
  | cons nm rest ih =>
    intro k i h
    cases i with
    | zero =>
      simp [shapesAux]
    | succ j =>
      simp only [shapesAux, List.getD_cons_succ]
      rw [ih (k + 1) j (by simpa using Nat.lt_of_succ_lt_succ h)]
      have harith : (k + 1) + j = k + (j + 1) := by omega
      rw [harith]

/-- C9: in the computed layout, the legend slot of the `i`-th plotted file
sits at vertical position `1.0 - i * 0.08`, the chart's own default legend
starts at `1.08 - (plottedFileCount * 0.08 + 0.08)`, and that offset lies
strictly below every custom legend slot, so the two legends never overlap. -/
theorem legend_slots_and_default_offset (s : AppState) (L : Layout)
    (hL : plotLayout s = some L) :
    (∀ i, i < (plottedFiles s).length →
      (L.shapes.getD i (0, "")).1 = 1 - (i : ℚ) * 0.08) ∧
    L.legendY = 1.08 - (((plottedFiles s).length : ℚ) * 0.08 + 0.08) ∧
    (∀ i, i < (plottedFiles s).length →
      L.legendY < (L.shapes.getD i (0, "")).1) := by
  have hne : ¬((tracesToPlot s).length = 0) := by
    intro hz
    rw [plotLayout, if_pos hz] at hL
    exact Option.noConfusion hL
  rw [plotLayout, if_neg hne] at hL
  have hL' := Option.some.inj hL
  subst hL'
  have hshape : ∀ i, i < (plottedFiles s).length →
      ((shapesAux s (plottedFiles s) 0).getD i (0, "")).1 = 1 - (i : ℚ) * 0.08 := by
    intro i hi
    rw [shapesAux_getD s (plottedFiles s) 0 i hi]
    norm_num
  refine ⟨hshape, rfl, ?_⟩
  intro i hi
  rw [hshape i hi]
  have hcast : (i : ℚ) < ((plottedFiles s).length : ℚ) := by exact_mod_cast hi
  have h8 : (0.08 : ℚ) * (i : ℚ) < 0.08 * ((plottedFiles s).length : ℚ) :=
    mul_lt_mul_of_pos_left hcast (by norm_num)
  show (1.08 : ℚ) - (((plottedFiles s).length : ℚ) * 0.08 + 0.08) < 1 - (i : ℚ) * 0.08
  nlinarith

/-! ## Registry invariants across operation sequences -/

lemma regNames_sublist (results : List (String × FileContent)) :
    List.Sublist (regNames results) (results.map Prod.fst) :=
  (List.filter_sublist results).map Prod.fst

lemma okContents_names_sublist (files : List (String × ReadResult)) :
    List.Sublist ((okContents files).map Prod.fst) (files.map Prod.fst) := by
  induction files with
  | nil => exact List.Sublist.refl _
  | cons f rest ih =>
    simp only [okContents, List.filterMap_cons] at ih ⊢
    cases f.2 with
    | ok c =>
      simp only [List.map_cons]
      exact ih.cons₂ f.1
    | err =>
      simp only [List.map_cons]
      exact ih.cons f.1

lemma newBatchFiles_names_sublist (s : AppState)
    (files : List (String × ReadResult)) :
    List.Sublist ((newBatchFiles s files).map Prod.fst) (files.map Prod.fst) :=
  (List.filter_sublist files).map Prod.fst

/-- The names registered by a batch, seen from the original submission list. -/
def batchRegNames (s : AppState) (files : List (String × ReadResult)) : List String :=
  regNames (okContents (newBatchFiles s files))

lemma batchRegNames_sublist (s : AppState) (files : List (String × ReadResult)) :
    List.Sublist (batchRegNames s files) (files.map Prod.fst) :=
  ((regNames_sublist _).trans (okContents_names_sublist _)).trans
    (newBatchFiles_names_sublist s files)

lemma mem_batchRegNames_not_registered (s : AppState)
    (files : List (String × ReadResult)) (nm : String)
    (h : nm ∈ batchRegNames s files) : alookup s.parsedFileData nm = none := by
  have h1 : nm ∈ (okContents (newBatchFiles s files)).map Prod.fst :=
    (regNames_sublist _).subset h
  have h2 : nm ∈ (newBatchFiles s files).map Prod.fst :=
    (okContents_names_sublist _).subset h1
  obtain ⟨f, hf, rfl⟩ := List.mem_map.mp h2
  have := (List.mem_filter.mp hf).2
  simpa using this

lemma regData_keys (results : List (String × FileContent)) :
    (regData results).map Prod.fst = regNames results := by
  simp only [regData, regNames, List.map_map]
  rfl

lemma regDown_subset_regNames (results : List (String × FileContent)) :
    ∀ nm ∈ regDown results, nm ∈ regNames results := by
  intro nm h
  simp only [regDown, List.mem_map] at h
  obtain ⟨r, hr, rfl⟩ := h
  have := List.mem_of_mem_filter hr
  exact List.mem_map.mpr ⟨r, this, rfl⟩

lemma alookup_mergeAssoc_isSome_left {β : Type} (adds m : List (String × β))
    (g : String) (h : (alookup m g).isSome) :
    (alookup (mergeAssoc m adds) g).isSome := by
  induction adds generalizing m with
  | nil => exact h
  | cons p rest ih =>
    simp only [mergeAssoc, List.foldl_cons]
    apply ih
    rw [alookup_assocSet]
    split
    · rfl
    · exact h

lemma alookup_mergeAssoc_isSome_mem {β : Type} (adds m : List (String × β))
    (g : String) (h : g ∈ adds.map Prod.fst) :
    (alookup (mergeAssoc m adds) g).isSome := by
  induction adds generalizing m with
  | nil => exact absurd h (by simp)
  | cons p rest ih =>
    simp only [mergeAssoc, List.foldl_cons]
    rw [List.map_cons] at h
    rcases List.mem_cons.mp h with heq | hrest
    · apply alookup_mergeAssoc_isSome_left
      rw [alookup_assocSet, if_pos heq]
      rfl
    · exact ih _ hrest

lemma styleAssign_keys (start : Nat) (names : List String) :
    (styleAssign start names).map Prod.fst = names := by
  induction names generalizing start with
  | nil => rfl
  | cons nm rest ih =>
    simp [styleAssign, ih]

lemma alookup_mergeAssoc_styleAssign (names : List String) (hnd : names.Nodup) :
    ∀ (m : List (String × String)) (start k : Nat), k < names.length →
      alookup (mergeAssoc m (styleAssign start names)) (names.getD k "") =
        some (LINE_STYLES.getD ((start + k) % LINE_STYLES.length) "") := by
  induction names with
  | nil =>
    intro m start k hk
    simp at hk
  | cons nm rest ih =>
    intro m start k hk
    simp only [styleAssign, mergeAssoc, List.foldl_cons]
    rw [show List.foldl (fun acc q => assocSet acc q.1 q.2)
      (assocSet m nm (LINE_STYLES.getD (start % LINE_STYLES.length) ""))
      (styleAssign (start + 1) rest) =
        mergeAssoc (assocSet m nm (LINE_STYLES.getD (start % LINE_STYLES.length) ""))
          (styleAssign (start + 1) rest) from rfl]
    cases k with
    | zero =>
      have hnotin : nm ∉ (styleAssign (start + 1) rest).map Prod.fst := by
        rw [styleAssign_keys]
        exact (List.nodup_cons.mp hnd).1
      rw [List.getD_cons_zero, alookup_mergeAssoc_not_mem _ _ _ hnotin,
        alookup_assocSet, if_pos rfl, Nat.add_zero]
    | succ j =>
      have hj : j < rest.length := Nat.lt_of_succ_lt_succ hk
      rw [List.getD_cons_succ,
        ih (List.nodup_cons.mp hnd).2 _ (start + 1) j hj]
      have harith : start + 1 + j = start + (j + 1) := by omega
      rw [harith]

/-- One user-visible operation on the application state. -/
inductive Event where
  | upload (files : List (String × ReadResult)) (co : List Nat)
  | toggle (nm : String)
  | restyle (nm st : String)
  | clear
deriving DecidableEq

/-- Apply one event through the corresponding handler. -/
def applyEvent (s : AppState) : Event → AppState
  | Event.upload files co => processFiles s files co
  | Event.toggle nm => handleSelectionChange s nm
  | Event.restyle nm st => handleStyleChange s nm st
  | Event.clear => handleClearAll s

/-- Run a sequence of events from the initial state. -/
def runEvents (es : List Event) : AppState :=
  es.foldl applyEvent initialState

/-- An upload event whose submitted file names are pairwise distinct (one
browser `FileList` cannot hold two entries of the same name). -/
def eventBatchNodup : Event → Bool
  | Event.upload files _ => decide (files.map Prod.fst).Nodup
  | _ => true

/-- An event that is not a style override. -/
def eventNotRestyle : Event → Bool
  | Event.restyle _ _ => false
  | _ => true

/-- Registry well-formedness: the registered names are pairwise distinct and
each has parsed data. -/
def RegInv (s : AppState) : Prop :=
  s.fileOrder.Nodup ∧ ∀ nm ∈ s.fileOrder, (alookup s.parsedFileData nm).isSome

/-- Every registered file still carries the default style determined by its
position in overall registration order. -/
def StyleInv (s : AppState) : Prop :=
  ∀ k, k < s.fileOrder.length →
    alookup s.fileStyles (s.fileOrder.getD k "") =
      some (LINE_STYLES.getD (k % LINE_STYLES.length) "")

lemma batchRegNames_nodup (s : AppState) (files : List (String × ReadResult))
    (hnd : (files.map Prod.fst).Nodup) : (batchRegNames s files).Nodup :=
  hnd.sublist (batchRegNames_sublist s files)

lemma batchRegNames_disjoint (s : AppState) (files : List (String × ReadResult))
    (hreg : RegInv s) :
    ∀ nm ∈ s.fileOrder, nm ∉ batchRegNames s files := by
  intro nm hnm hcon
  have h1 := hreg.2 nm hnm
  have h2 := mem_batchRegNames_not_registered s files nm hcon
  rw [h2] at h1
  exact Bool.noConfusion h1

lemma regInv_mergedState (s : AppState) (files : List (String × ReadResult))
    (hnd : (files.map Prod.fst).Nodup) (h : RegInv s) :
    RegInv (mergedState s files) := by
  constructor
  · exact h.1.append (batchRegNames_nodup s files hnd)
      (batchRegNames_disjoint s files h)
  · intro nm hnm
    rcases List.mem_append.mp hnm with hl | hr
    · exact alookup_mergeAssoc_isSome_left _ _ _ (h.2 nm hl)
    · apply alookup_mergeAssoc_isSome_mem
      rw [regData_keys]
      exact hr

lemma styleInv_mergedState (s : AppState) (files : List (String × ReadResult))
    (hnd : (files.map Prod.fst).Nodup) (hreg : RegInv s) (h : StyleInv s) :
    StyleInv (mergedState s files) := by
  intro k hk
  have hlen : (mergedState s files).fileOrder =
      s.fileOrder ++ batchRegNames s files := rfl
  by_cases hkl : k < s.fileOrder.length
  · have hgd : (mergedState s files).fileOrder.getD k "" =
        s.fileOrder.getD k "" := by
      rw [hlen]
      exact List.getD_append _ _ _ _ hkl
    rw [hgd]
    have hmem : s.fileOrder.getD k "" ∈ s.fileOrder := by
      rw [List.getD_eq_getElem _ _ hkl]
      exact List.getElem_mem hkl
    have hnot : s.fileOrder.getD k "" ∉
        (styleAssign s.fileOrder.length (batchRegNames s files)).map Prod.fst := by
      rw [styleAssign_keys]
      exact batchRegNames_disjoint s files hreg _ hmem
    show alookup (mergeAssoc s.fileStyles
      (styleAssign s.fileOrder.length (batchRegNames s files))) _ = _
    rw [alookup_mergeAssoc_not_mem _ _ _ hnot]
    exact h k hkl
  · have hkr : s.fileOrder.length ≤ k := Nat.le_of_not_lt hkl
    have hj : k - s.fileOrder.length < (batchRegNames s files).length := by
      rw [hlen] at hk
      rw [List.length_append] at hk
      omega
    have hgd : (mergedState s files).fileOrder.getD k "" =
        (batchRegNames s files).getD (k - s.fileOrder.length) "" := by
      rw [hlen]
      exact List.getD_append_right _ _ _ _ hkr
    rw [hgd]
    show alookup (mergeAssoc s.fileStyles
      (styleAssign s.fileOrder.length (batchRegNames s files))) _ = _
    rw [alookup_mergeAssoc_styleAssign (batchRegNames s files)
      (batchRegNames_nodup s files hnd) s.fileStyles s.fileOrder.length
      (k - s.fileOrder.length) hj]
    have harith : s.fileOrder.length + (k - s.fileOrder.length) = k := by omega
    rw [harith]

lemma invariants_processFiles (s : AppState) (files : List (String × ReadResult))
    (co : List Nat) (hnd : (files.map Prod.fst).Nodup)
    (h : RegInv s ∧ StyleInv s) :
    RegInv (processFiles s files co) ∧ StyleInv (processFiles s files co) := by
  by_cases h0 : files.length = 0
  · simp only [processFiles, if_pos h0]
    exact h
  · by_cases h1 : (newBatchFiles s files).length = 0
    · simp only [processFiles, if_neg h0, if_pos h1]
      exact h
    · cases hfind : co.find? (readFailsAt (newBatchFiles s files)) with
      | none =>
        rw [processFiles_all_ok s files co hfind, if_neg h0, if_neg h1]
        exact ⟨regInv_mergedState s files hnd h.1,
          styleInv_mergedState s files hnd h.1 h.2⟩
      | some i =>
        rw [processFiles_read_error s files co i h0 h1 hfind]
        exact h

lemma invariants_applyEvent (s : AppState) (e : Event)
    (hnd : eventBatchNodup e = true) (hnr : eventNotRestyle e = true)
    (h : RegInv s ∧ StyleInv s) :
    RegInv (applyEvent s e) ∧ StyleInv (applyEvent s e) := by
  cases e with
  | upload files co =>
    have hnd' : (files.map Prod.fst).Nodup := by
      simpa [eventBatchNodup] using hnd
    exact invariants_processFiles s files co hnd' h
  | toggle nm => exact h
  | restyle nm st => exact absurd hnr (by simp [eventNotRestyle])
  | clear =>
    constructor
    · exact ⟨List.nodup_nil, by intro nm hnm; exact absurd hnm (List.not_mem_nil nm)⟩
    · intro k hk
      exact absurd hk (by simp [applyEvent, handleClearAll])

lemma regInv_applyEvent (s : AppState) (e : Event)
    (hnd : eventBatchNodup e = true) (h : RegInv s) :
    RegInv (applyEvent s e) := by
  cases e with
  | upload files co =>
    have hnd' : (files.map Prod.fst).Nodup := by
      simpa [eventBatchNodup] using hnd
    by_cases h0 : files.length = 0
    · simp only [applyEvent, processFiles, if_pos h0]
      exact h
    · by_cases h1 : (newBatchFiles s files).length = 0
      · simp only [applyEvent, processFiles, if_neg h0, if_pos h1]
        exact h
      · cases hfind : co.find? (readFailsAt (newBatchFiles s files)) with
        | none =>
          show RegInv (processFiles s files co)
          rw [processFiles_all_ok s files co hfind, if_neg h0, if_neg h1]
          exact regInv_mergedState s files hnd' h
        | some i =>
          show RegInv (processFiles s files co)
          rw [processFiles_read_error s files co i h0 h1 hfind]
          exact h
  | toggle nm => exact h
  | restyle nm st => exact h
  | clear =>
    exact ⟨List.nodup_nil, by intro nm hnm; exact absurd hnm (List.not_mem_nil nm)⟩

lemma initialState_invariants : RegInv initialState ∧ StyleInv initialState := by
  refine ⟨⟨List.nodup_nil, ?_⟩, ?_⟩
  · intro nm hnm
    exact absurd hnm (List.not_mem_nil nm)
  · intro k hk
    exact absurd hk (by simp [initialState])

lemma invariants_foldl (es : List Event)
    (h1 : ∀ e ∈ es, eventBatchNodup e = true)
    (h2 : ∀ e ∈ es, eventNotRestyle e = true) :
    ∀ s : AppState, RegInv s ∧ StyleInv s →
      RegInv (es.foldl applyEvent s) ∧ StyleInv (es.foldl applyEvent s) := by
  induction es with
  | nil => intro s h; exact h
  | cons e rest ih =>
    intro s h
    rw [List.foldl_cons]
    exact ih (fun x hx => h1 x (List.mem_cons_of_mem e hx))
      (fun x hx => h2 x (List.mem_cons_of_mem e hx))
      _ (invariants_applyEvent s e (h1 e (List.mem_cons_self e rest))
        (h2 e (List.mem_cons_self e rest)) h)

lemma regInv_foldl (es : List Event)
    (h1 : ∀ e ∈ es, eventBatchNodup e = true) :
    ∀ s : AppState, RegInv s → RegInv (es.foldl applyEvent s) := by
  induction es with
  | nil => intro s h; exact h
  | cons e rest ih =>
    intro s h
    rw [List.foldl_cons]
    exact ih (fun x hx => h1 x (List.mem_cons_of_mem e hx)) _
      (regInv_applyEvent s e (h1 e (List.mem_cons_self e rest)) h)

/-- C6: after any sequence of uploads, selection toggles and clear-alls (no
style override), every registered file's style is the palette entry at index
(position in overall registration order) mod (palette length); in particular
deselecting and reselecting a file never changes its assigned style. -/
theorem default_style_is_position_mod_palette (es : List Event)
    (h1 : ∀ e ∈ es, eventBatchNodup e = true)
    (h2 : ∀ e ∈ es, eventNotRestyle e = true) :
    ∀ k, k < (runEvents es).fileOrder.length →
      alookup (runEvents es).fileStyles ((runEvents es).fileOrder.getD k "") =
        some (LINE_STYLES.getD (k % LINE_STYLES.length) "") :=
  (invariants_foldl es h1 h2 initialState initialState_invariants).2

/-- C5: across every sequence of submissions (each batch with pairwise
distinct names), registered file names stay pairwise distinct, and
re-submitting a name that is already registered is a no-op for that name:
its multiplicity in the registry order, its parsed series and its style are
all unchanged. -/
theorem registry_unique_and_resubmit_noop :
    (∀ es : List Event, (∀ e ∈ es, eventBatchNodup e = true) →
      (runEvents es).fileOrder.Nodup) ∧
    (∀ (s : AppState) (files : List (String × ReadResult)) (co : List Nat)
        (nm : String), (alookup s.parsedFileData nm).isSome →
      (processFiles s files co).fileOrder.count nm = s.fileOrder.count nm ∧
      alookup (processFiles s files co).parsedFileData nm =
        alookup s.parsedFileData nm ∧
      alookup (processFiles s files co).fileStyles nm = alookup s.fileStyles nm) := by
  constructor
  · intro es h1
    exact (regInv_foldl es h1 initialState initialState_invariants.1).1
  · intro s files co nm hsome
    have hnot : nm ∉ batchRegNames s files := by
      intro hcon
      have hnone := mem_batchRegNames_not_registered s files nm hcon
      rw [hnone] at hsome
      exact Bool.noConfusion hsome
    by_cases h0 : files.length = 0
    · rw [show processFiles s files co = s from by
        simp only [processFiles, if_pos h0]]
      exact ⟨rfl, rfl, rfl⟩
    · by_cases h1 : (newBatchFiles s files).length = 0
      · rw [show processFiles s files co =
            { s with error := none, isLoading := false } from by
          simp only [processFiles, if_neg h0, if_pos h1]]
        exact ⟨rfl, rfl, rfl⟩
      · cases hfind : co.find? (readFailsAt (newBatchFiles s files)) with
        | some i =>
          rw [processFiles_read_error s files co i h0 h1 hfind]
          exact ⟨rfl, rfl, rfl⟩
        | none =>
          rw [processFiles_all_ok s files co hfind, if_neg h0, if_neg h1]
          refine ⟨?_, ?_, ?_⟩
          · show (s.fileOrder ++ batchRegNames s files).count nm =
              s.fileOrder.count nm
            rw [List.count_append]
            have hz : (batchRegNames s files).count nm = 0 :=
              List.count_eq_zero.mpr hnot
            omega
          · show alookup (mergeAssoc s.parsedFileData
              (regData (okContents (newBatchFiles s files)))) nm = _
            rw [alookup_mergeAssoc_not_mem _ _ _ (by
              rw [regData_keys]
              exact hnot)]
          · show alookup (mergeAssoc s.fileStyles
              (styleAssign s.fileOrder.length (batchRegNames s files))) nm = _
            rw [alookup_mergeAssoc_not_mem _ _ _ (by
              rw [styleAssign_keys]
              exact hnot)]

/-! ## Concrete witnesses -/

/-- Four sample points for exercising the downsampler. -/
def demoPoints : List Point := [⟨0, 0⟩, ⟨1, 5⟩, ⟨2, 1⟩, ⟨3, 0⟩]

theorem downsample_exact_target_and_endpoints_witness :
    (largestTriangleThreeBuckets demoPoints 3).length = 3 ∧
    (largestTriangleThreeBuckets demoPoints 3).head? = demoPoints.head? ∧
    (largestTriangleThreeBuckets demoPoints 3).getLast? = demoPoints.getLast? :=
  downsample_exact_target_and_endpoints demoPoints 3 (by decide) (by decide)

theorem downsample_identity_witness :
    largestTriangleThreeBuckets demoPoints 7 = demoPoints :=
  downsample_identity demoPoints 7 (Or.inl (by decide))

/-- The good/bad two-file batch used for the read-error claims. -/
def demoBatchGoodBad : List (String × ReadResult) :=
  [("good.csv", ReadResult.ok goodContent), ("bad.csv", ReadResult.err)]

theorem read_error_aborts_whole_batch_witness :
    (processFiles initialState demoBatchGoodBad [0, 1]).fileOrder =
      initialState.fileOrder ∧
    (processFiles initialState demoBatchGoodBad [0, 1]).parsedFileData =
      initialState.parsedFileData ∧
    readFailsAt (newBatchFiles initialState demoBatchGoodBad) 1 = true ∧
    (processFiles initialState demoBatchGoodBad [0, 1]).error =
      some ("Error reading " ++
        ((newBatchFiles initialState demoBatchGoodBad).getD 1
          ("", ReadResult.err)).1) :=
  read_error_aborts_whole_batch initialState demoBatchGoodBad [0, 1] 1
    (by decide) (by decide) (by decide)

/-- A two-file batch `{X.csv, Y.csv}`. -/
def demoBatchXY : List (String × ReadResult) :=
  [("X.csv", ReadResult.ok goodContent), ("Y.csv", ReadResult.ok goodContent)]

theorem batch_merge_in_submission_order_witness :
    ((processFiles initialState demoBatchXY [1, 0]).fileOrder =
      initialState.fileOrder ++
        regNames (okContents (newBatchFiles initialState demoBatchXY)) ∧
      processFiles initialState demoBatchXY [1, 0] =
        processFiles initialState demoBatchXY [0, 1]) ∧
    (processFiles initialState demoBatchXY [1, 0]).fileOrder =
      ["X.csv", "Y.csv"] :=
  ⟨batch_merge_in_submission_order initialState demoBatchXY [1, 0] [0, 1]
      (by decide) (by decide) (by decide),
    by decide⟩

/-- A second sample content, different from `goodContent`. -/
def otherContent : FileContent :=
  ⟨[], ["t", "z"], [[5, 6]]⟩

/-- Upload `A.csv` then `B.csv`, then re-upload `A.csv` with different
content. -/
def eventsABA : List Event :=
  [Event.upload [("A.csv", ReadResult.ok goodContent)] [0],
   Event.upload [("B.csv", ReadResult.ok goodContent)] [0],
   Event.upload [("A.csv", ReadResult.ok otherContent)] [0]]

/-- The state after registering `A.csv` then `B.csv`. -/
def stateAB : AppState :=
  runEvents
    [Event.upload [("A.csv", ReadResult.ok goodContent)] [0],
     Event.upload [("B.csv", ReadResult.ok goodContent)] [0]]

theorem registry_unique_and_resubmit_noop_witness :
    ((runEvents eventsABA).fileOrder.Nodup ∧
      ((processFiles stateAB [("A.csv", ReadResult.ok otherContent)] [0]).fileOrder.count
          "A.csv" = stateAB.fileOrder.count "A.csv" ∧
        alookup (processFiles stateAB
            [("A.csv", ReadResult.ok otherContent)] [0]).parsedFileData "A.csv" =
          alookup stateAB.parsedFileData "A.csv" ∧
        alookup (processFiles stateAB
            [("A.csv", ReadResult.ok otherContent)] [0]).fileStyles "A.csv" =
          alookup stateAB.fileStyles "A.csv")) ∧
    (runEvents eventsABA).fileOrder = ["A.csv", "B.csv"] :=
  ⟨⟨registry_unique_and_resubmit_noop.1 eventsABA (by decide),
    registry_unique_and_resubmit_noop.2 stateAB
      [("A.csv", ReadResult.ok otherContent)] [0] "A.csv" (by decide)⟩,
    by decide⟩

/-- Upload one file, then deselect and reselect it. -/
def eventsToggleTwice : List Event :=
  [Event.upload [("a.csv", ReadResult.ok goodContent)] [0],
   Event.toggle "a.csv", Event.toggle "a.csv"]

theorem default_style_is_position_mod_palette_witness :
    alookup (runEvents eventsToggleTwice).fileStyles
        ((runEvents eventsToggleTwice).fileOrder.getD 0 "") =
      some (LINE_STYLES.getD (0 % LINE_STYLES.length) "") :=
  default_style_is_position_mod_palette eventsToggleTwice (by decide) (by decide)
    0 (by decide)

theorem setStyle_only_touches_one_file_witness :
    (handleStyleChange stateAB "A.csv" "dot").fileOrder = stateAB.fileOrder ∧
    (handleStyleChange stateAB "A.csv" "dot").selectedFiles =
      stateAB.selectedFiles ∧
    (handleStyleChange stateAB "A.csv" "dot").parsedFileData =
      stateAB.parsedFileData ∧
    (handleStyleChange stateAB "A.csv" "dot").downsampledFiles =
      stateAB.downsampledFiles ∧
    styleOf (handleStyleChange stateAB "A.csv" "dot") "A.csv" = "dot" ∧
    (∀ g, g ≠ "A.csv" →
      styleOf (handleStyleChange stateAB "A.csv" "dot") g = styleOf stateAB g) ∧
    (∀ t ∈ stampedTraces (handleStyleChange stateAB "A.csv" "dot") "A.csv",
      t.lineDash = some "dot") ∧
    ((stampedTraces (handleStyleChange stateAB "A.csv" "dot") "A.csv").map
        (fun t => (t.x, t.y, t.name)) =
      ((alookup stateAB.parsedFileData "A.csv").getD []).map
        (fun t => (t.x, t.y, t.name))) ∧
    (∀ g, g ≠ "A.csv" →
      stampedTraces (handleStyleChange stateAB "A.csv" "dot") g =
        stampedTraces stateAB g) :=
  setStyle_only_touches_one_file stateAB "A.csv" "dot" (by decide) (by decide)

/-- A default layout value used only to extract the computed layout. -/
def emptyLayout : Layout := ⟨"", "", "", 0, [], []⟩

theorem legend_slots_and_default_offset_witness :
    (∀ i, i < (plottedFiles stateAB).length →
      (((plotLayout stateAB).getD emptyLayout).shapes.getD i (0, "")).1 =
        1 - (i : ℚ) * 0.08) ∧
    ((plotLayout stateAB).getD emptyLayout).legendY =
      1.08 - (((plottedFiles stateAB).length : ℚ) * 0.08 + 0.08) ∧
    (∀ i, i < (plottedFiles stateAB).length →
      ((plotLayout stateAB).getD emptyLayout).legendY <
        (((plotLayout stateAB).getD emptyLayout).shapes.getD i (0, "")).1) :=
  legend_slots_and_default_offset stateAB ((plotLayout stateAB).getD emptyLayout)
    (by
      rw [plotLayout, if_neg (by decide : ¬(tracesToPlot stateAB).length = 0)]
      rfl)

theorem new_files_auto_selected_witness :
    "w.csv" ∈ (processFiles initialState
      [("w.csv", ReadResult.ok goodContent)] [0]).selectedFiles :=
  new_files_auto_selected initialState [("w.csv", ReadResult.ok goodContent)]
    [0] "w.csv" (by decide) (by decide)

end CsvPlotter
